import Mathlib

/-!
Verification development for the bucket classification / extrapolation engine
and the `ArtResizer` dispatcher of this repository.

The bucket engine (`RangeParser`, `YearBucketClassifier`, `AlphaBucketClassifier`,
`ExtrapolationEngine`) is not shipped under `src/`; only its test suite is.  Its
definitions below are therefore modelled from the specification document, and the
test suite's concrete expectations are used as ground truth wherever the prose of
the specification is ambiguous or internally inconsistent.  The `ArtResizer`
definitions are a direct shallow embedding of `src/beets/util/artresizer.py`.

All string processing is carried out on `List Char` with structural recursion so
that every definition evaluates by kernel reduction.
-/

namespace Bucket

/-- Modelled from the spec: the style tag of a bucket descriptor (§3).
One of `SinglePlain`, `SingleDecadeSuffixed`, `RangeExplicitList`, `RangeFromTo`. -/
inductive Kind where
  | singlePlain
  | singleDecadeSuffixed
  | rangeExplicitList
  | rangeFromTo
deriving DecidableEq

/-- Modelled from the spec: the immutable `BucketDescriptor` record (§3) for year
buckets.  `stop` models the spec's `end` field (`end` is a Lean keyword):
`none` only for single-value kinds, meaning "open, resolved at lookup time".
`endDigitWidth` is the digit count of the textual end token of a `RangeFromTo`
label (0 when not applicable). -/
structure BucketDescriptor where
  label : String
  kind : Kind
  start : Int
  stop : Option Int
  endDigitWidth : Nat
deriving DecidableEq

/-- Whether a character occurs in a character list. -/
def containsC (cs : List Char) (c : Char) : Bool :=
  cs.any (fun x => decide (x = c))

/-- The last character of a character list, if any. -/
def lastChar : List Char → Option Char
  | [] => none
  | [c] => some c
  | _ :: c :: cs => lastChar (c :: cs)

/-- Split a character list on a separator character (every occurrence splits). -/
def splitOnC (sep : Char) : List Char → List (List Char)
  | [] => [[]]
  | c :: cs =>
    if c = sep then [] :: splitOnC sep cs
    else
      match splitOnC sep cs with
      | [] => [[c]]
      | t :: ts => (c :: t) :: ts

/-- Numeric value of a non-empty all-digit character list, `none` otherwise. -/
def digitsToNat? (cs : List Char) : Option Nat :=
  if cs ≠ [] ∧ cs.all Char.isDigit then
    some (cs.foldl (fun a c => a * 10 + (c.toNat - 48)) 0)
  else none

/-- Modelled from the spec: right-aligned substitution of an abbreviated token
into the low-order digits of a reference year (§4.1), e.g. reference `1950`
and two-digit token value `51` resolve to `1951`. -/
def substLow (refVal : Nat) (k : Nat) (v : Nat) : Nat :=
  refVal - refVal % 10 ^ k + v

/-- Modelled from the spec: resolve one token of an explicit year list against
the first (full-width) token (§4.1 rule 2): a token shorter than the reference
is substituted into the reference's low-order digits, otherwise it is literal. -/
def resolveToken (refVal refLen : Nat) (tok : List Char) : Option Nat :=
  match digitsToNat? tok with
  | none => none
  | some v => some (if tok.length < refLen then substLow refVal tok.length v else v)

/-- Modelled from the spec: resolve the remaining tokens of an explicit year
list, failing if any token is not numeric. -/
def resolveTokens (refVal refLen : Nat) : List (List Char) → Option (List Nat)
  | [] => some []
  | t :: ts =>
    match resolveToken refVal refLen t, resolveTokens refVal refLen ts with
    | some v, some vs => some (v :: vs)
    | _, _ => none

/-- Minimum of a year list with an initial candidate. -/
def minList (a : Nat) : List Nat → Nat
  | [] => a
  | x :: xs => minList (min a x) xs

/-- Maximum of a year list with an initial candidate. -/
def maxList (a : Nat) : List Nat → Nat
  | [] => a
  | x :: xs => maxList (max a x) xs

/-- Modelled from the spec: the year `RangeParser` (§4.1) on the character list
of a label.  Grammar, in priority order: a run of digits with an optional
trailing `s` (single value, the decade suffix distinguishes the kind); a
comma-separated explicit list whose later tokens may abbreviate the first;
a `from-to` pair whose right token may abbreviate the left and fixes
`endDigitWidth`.  Anything else is a parse failure (`none`), fatal at setup
time (§7). -/
def parseYearChars (s : String) (cs : List Char) : Option BucketDescriptor :=
  if ¬ containsC cs '-' ∧ ¬ containsC cs ',' then
    let core := if lastChar cs = some 's' then cs.dropLast else cs
    match digitsToNat? core with
    | some v =>
      some ⟨s, if lastChar cs = some 's' then Kind.singleDecadeSuffixed else Kind.singlePlain,
            (v : Int), none, 0⟩
    | none => none
  else if containsC cs ',' then
    match splitOnC ',' cs with
    | [] => none
    | first :: rest =>
      match digitsToNat? first with
      | none => none
      | some fv =>
        match resolveTokens fv first.length rest with
        | none => none
        | some vs =>
          some ⟨s, Kind.rangeExplicitList, (minList fv vs : Int), some (maxList fv vs : Int), 0⟩
  else
    match splitOnC '-' cs with
    | [l, r] =>
      match digitsToNat? l, digitsToNat? r with
      | some lv, some rv =>
        some ⟨s, Kind.rangeFromTo, (lv : Int),
              some ((if r.length < l.length then substLow lv r.length rv else rv : Nat) : Int),
              r.length⟩
      | _, _ => none
    | _ => none

/-- Modelled from the spec: the year `RangeParser` on a label string (§4.1). -/
def parseYearLabel (s : String) : Option BucketDescriptor :=
  parseYearChars s s.toList

/-- Modelled from the spec: parse a whole `bucket_year` configuration; any
failing label makes the whole setup fail (§7). -/
def parseYearCfg (cfg : List String) : Option (List BucketDescriptor) :=
  cfg.mapM parseYearLabel

/-- Modelled from the spec: resolve each descriptor's *effective end* at call
time (§4.3 step 1): an open descriptor (`stop = none`) that is not last gets
(next descriptor's `start` − 1); a last open descriptor gets
`max start currentYear`. -/
def resolveEnds (cy : Int) : List BucketDescriptor → List (BucketDescriptor × Int)
  | [] => []
  | [d] => [(d, match d.stop with | some e => e | none => max d.start cy)]
  | d :: nxt :: rest =>
    (d, match d.stop with | some e => e | none => nxt.start - 1) :: resolveEnds cy (nxt :: rest)

/-- Whether a resolved descriptor's `[start, effective_end]` interval contains
the query year. -/
def covers (y : Int) (p : BucketDescriptor × Int) : Bool :=
  decide (p.1.start ≤ y) && decide (y ≤ p.2)

/-- Modelled from the spec: scan resolved descriptors in configured order and
return the label of the first whose interval contains the year (§4.3 step 2). -/
def firstMatch (y : Int) (pairs : List (BucketDescriptor × Int)) : Option String :=
  (pairs.find? (covers y)).map (fun p => p.1.label)

/-- Count of occurrences of a value in a list. -/
def countEq {α : Type} [DecidableEq α] (xs : List α) (a : α) : Nat :=
  (xs.filter (fun x => decide (x = a))).length

/-- Index of the first occurrence of a value in a list (list length if absent). -/
def firstIdx {α : Type} [DecidableEq α] : List α → α → Nat
  | [], _ => 0
  | x :: xs, a => if x = a then 0 else firstIdx xs a + 1

/-- The fold underlying `pickDominant`: a later candidate replaces the running
best only on a strictly greater occurrence count in `xs`. -/
def pickFold {α : Type} [DecidableEq α] (xs : List α) (best : α) (rest : List α) : α :=
  rest.foldl (fun b v => if countEq xs b < countEq xs v then v else b) best

/-- Dominance of `b` over `u` in `xs`: strictly more occurrences, or equally many with
`b` occurring first no later than `u`. -/
def domP {α : Type} [DecidableEq α] (xs : List α) (b u : α) : Prop :=
  countEq xs u < countEq xs b ∨
    (countEq xs u = countEq xs b ∧ firstIdx xs b ≤ firstIdx xs u)

/-- Modelled from the spec: pick the most frequent value of a list, ties broken
by earliest first occurrence in the list (§4.4 steps 1–2, §9: stable
sort-by-(count desc, first-index asc)).  A later candidate replaces the running
best only on a strictly greater count, which realises exactly that rule. -/
def pickDominant {α : Type} [DecidableEq α] (xs : List α) : Option α :=
  match xs with
  | [] => none
  | x :: rest => some (pickFold xs x rest)

/-- Modelled from the spec: the dominant style of a descriptor list (§4.4
step 1): the kind with the highest count, ties broken by earliest first
occurrence in configured order. -/
def dominantStyle (ds : List BucketDescriptor) : Option Kind :=
  pickDominant (ds.map (fun d => d.kind))

/-- Whether a kind is one of the two range styles. -/
def isRangeKind : Kind → Bool
  | Kind.rangeExplicitList => true
  | Kind.rangeFromTo => true
  | _ => false

/-- Modelled from the spec: the span width of a range-style descriptor.  The
spec's §4.4 prose says `end − start`, but its own §8 examples (and the
repository tests) require the bucket span length `end − start + 1` — e.g.
`"1950-59"` has width 10 and `1914` extrapolates to `"1910-19"` — so the span
length is used.  (1 is a placeholder for the unreachable open case.) -/
def widthOfRange (d : BucketDescriptor) : Int :=
  match d.stop with
  | some e => e - d.start + 1
  | none => 1

/-- Modelled from the spec: consecutive spacings of the starts of same-style
single descriptors (§4.4 step 2). -/
def singleSpacings : List Int → List Int
  | a :: b :: rest => (b - a) :: singleSpacings (b :: rest)
  | _ => []

/-- Index of the first occurrence of a descriptor in a list (length if absent). -/
def idxOfD : List BucketDescriptor → BucketDescriptor → Nat
  | [], _ => 0
  | x :: xs, d => if x = d then 0 else idxOfD xs d + 1

/-- Modelled from the spec: width for a lone single-style descriptor (§4.4
step 2): the spec's garbled "its own computed neighbor spacing if any other
descriptor exists" is read as the spacing to the neighbouring descriptor in
the full configured list (the next one, or the previous one when it is last);
`none` when no other descriptor exists, making extrapolation impossible. -/
def loneWidth (ds : List BucketDescriptor) (d : BucketDescriptor) : Option Int :=
  let i := idxOfD ds d
  match ds.get? (i + 1) with
  | some nxt => some (nxt.start - d.start)
  | none =>
    match i with
    | 0 => none
    | j + 1 => (ds.get? j).map (fun prv => d.start - prv.start)

/-- Modelled from the spec: the dominant width for the dominant style (§4.4
step 2): most frequent width (ties by earliest occurrence) among range-style
widths, or among consecutive start spacings for single styles, with the lone
single-descriptor fallback. -/
def dominantWidth (ds : List BucketDescriptor) (k : Kind) : Option Int :=
  let sub := ds.filter (fun d => decide (d.kind = k))
  if isRangeKind k then pickDominant (sub.map widthOfRange)
  else
    match singleSpacings (sub.map (fun d => d.start)) with
    | [] =>
      match sub with
      | [d] => loneWidth ds d
      | _ => none
    | sp => pickDominant sp

/-- Modelled from the spec: the anchor descriptor (§4.4 step 3): the first
descriptor of the dominant style in configured order. -/
def anchorOf (ds : List BucketDescriptor) (k : Kind) : Option BucketDescriptor :=
  ds.find? (fun d => decide (d.kind = k))

/-- Left-pad a string with zeros up to a width. -/
def padZeros (s : String) (w : Nat) : String :=
  if w ≤ s.length then s else String.mk (List.replicate (w - s.length) '0') ++ s

/-- Modelled from the spec: format a generated end year with the anchor's
`end_digit_width` (§4.4 step 5): truncate to the low-order digits when the
width is smaller than 4, otherwise emit the full 4 digits. -/
def fmtEnd (e : Int) (w : Nat) : String :=
  if w < 4 then padZeros (toString (e % (10 ^ w : Nat))) w
  else padZeros (toString (e % (10 ^ 4 : Nat))) 4

/-- Modelled from the spec: the `ExtrapolationEngine` (§4.4).  From the full
descriptor list and an uncovered year it infers the dominant style, dominant
width and anchor, aligns `generated_start` on the anchor with floor division
toward negative infinity (`Int.fdiv`), synthesises the style-consistent label,
and returns the fresh descriptor together with the width used. -/
def extrapolateBucket (ds : List BucketDescriptor) (y : Int) : Option (BucketDescriptor × Int) :=
  match dominantStyle ds with
  | none => none
  | some k =>
    match dominantWidth ds k, anchorOf ds k with
    | some w, some a =>
      let s := a.start + (y - a.start).fdiv w * w
      if isRangeKind k then
        let e := s + w - 1
        some (⟨toString s ++ "-" ++ fmtEnd e a.endDigitWidth, k, s, some e, a.endDigitWidth⟩, w)
      else
        some (⟨toString s, k, s, none, 0⟩, w)
    | _, _ => none

/-- Modelled from the spec: `YearBucketClassifier.lookup` (§4.3) as a pure
function of the configured descriptors, the injected current calendar year
(§9), the extrapolation flag and the query year.  With no direct match,
extrapolation runs only when enabled and at least two buckets exist (§7:
otherwise extrapolation is impossible and the identity label is returned). -/
def lookupPure (ds : List BucketDescriptor) (cy : Int) (extrap : Bool) (y : Int) : String :=
  match firstMatch y (resolveEnds cy ds) with
  | some lbl => lbl
  | none =>
    if extrap && decide (2 ≤ ds.length) then
      match extrapolateBucket ds y with
      | some (d, _) => d.label
      | none => toString y
    else toString y

/-- Modelled from the spec: the whole year pipeline — parse the configured
label strings, then look the year up; `none` on a configuration parse error
(fatal at setup, §7). -/
def yearLookup (cfg : List String) (cy : Int) (extrap : Bool) (y : Int) : Option String :=
  (parseYearCfg cfg).map (fun ds => lookupPure ds cy extrap y)

/-- Modelled from the spec: one entry of the extrapolation cache (§4.3 step 4),
keyed by the generated bucket's computed start, remembering the width used and
the generated label. -/
structure CacheEntry where
  start : Int
  width : Int
  label : String
deriving DecidableEq

/-- Modelled from the spec: cache reuse (§4.3 step 4): a previously generated
bucket whose `[start, start + width)` interval covers the year is reused. -/
def cacheFind (y : Int) (cache : List CacheEntry) : Option String :=
  (cache.find? (fun e => decide (e.start ≤ y) && decide (y < e.start + e.width))).map
    (fun e => e.label)

/-- Modelled from the spec: `YearBucketClassifier.lookup` with the extrapolation
cache (§4.3): a direct match wins; otherwise, with extrapolation possible, a
covering cached bucket is reused, else a fresh bucket is generated and cached
by its computed start. -/
def lookupCached (ds : List BucketDescriptor) (cy : Int) (extrap : Bool) (y : Int)
    (cache : List CacheEntry) : String × List CacheEntry :=
  match firstMatch y (resolveEnds cy ds) with
  | some lbl => (lbl, cache)
  | none =>
    if extrap && decide (2 ≤ ds.length) then
      match cacheFind y cache with
      | some lbl => (lbl, cache)
      | none =>
        match extrapolateBucket ds y with
        | some (d, w) => (d.label, ⟨d.start, w, d.label⟩ :: cache)
        | none => (toString y, cache)
    else (toString y, cache)

/-- Modelled from the spec: a `YearBucketClassifier` instance: the configured
descriptor list (read-only after setup), the injected current year, the
extrapolation flag and the append-only extrapolation cache (§3, §5). -/
structure YearClassifier where
  config : List BucketDescriptor
  currentYear : Int
  extrapolate : Bool
  cache : List CacheEntry
deriving DecidableEq

/-- Modelled from the spec: a lookup call on a classifier instance, returning
the label and the updated instance (only the cache may change). -/
def lookupClass (st : YearClassifier) (y : Int) : String × YearClassifier :=
  let r := lookupCached st.config st.currentYear st.extrapolate y st.cache
  (r.1, { st with cache := r.2 })

/-- Modelled from the spec: a character-range descriptor for `bucket_alpha`
(§3, §4.2).  `chars` is the descriptor's character set (the characters of the
label), used for explicit-list membership matching. -/
structure AlphaDescriptor where
  label : String
  kind : Kind
  startC : Char
  stopC : Char
  chars : List Char
deriving DecidableEq

/-- Minimum of a character list with an initial candidate. -/
def minChar (a : Char) : List Char → Char
  | [] => a
  | x :: xs => minChar (if x < a then x else a) xs

/-- Maximum of a character list with an initial candidate. -/
def maxChar (a : Char) : List Char → Char
  | [] => a
  | x :: xs => maxChar (if a < x then x else a) xs

/-- Modelled from the spec: the alpha `RangeParser` (§4.2): an `X-Y` form with
single characters flanking exactly one `-` yields a `RangeFromTo`; any other
non-empty string yields a `RangeExplicitList` whose bounds are its smallest
and largest characters and whose character set is the whole string. -/
def parseAlphaChars (s : String) (cs : List Char) : Option AlphaDescriptor :=
  match cs with
  | [x, '-', y] =>
    if x ≠ '-' ∧ y ≠ '-' then some ⟨s, Kind.rangeFromTo, x, y, cs⟩
    else some ⟨s, Kind.rangeExplicitList, minChar '-' cs, maxChar '-' cs, cs⟩
  | [] => none
  | c :: rest => some ⟨s, Kind.rangeExplicitList, minChar c rest, maxChar c rest, cs⟩

/-- Modelled from the spec: the alpha `RangeParser` on a label string (§4.2). -/
def parseAlphaLabel (s : String) : Option AlphaDescriptor :=
  parseAlphaChars s s.toList

/-- Modelled from the spec: parse a whole `bucket_alpha` configuration. -/
def parseAlphaCfg (cfg : List String) : Option (List AlphaDescriptor) :=
  cfg.mapM parseAlphaLabel

/-- Modelled from the spec: whether a descriptor matches a (normalized) leading
character (§4.5): a `RangeFromTo` matches when `start ≤ ch ≤ end`; a
`RangeExplicitList` matches when `ch` appears anywhere in the descriptor's
character set. -/
def alphaMatches (ch : Char) (d : AlphaDescriptor) : Bool :=
  match d.kind with
  | Kind.rangeFromTo => decide (d.startC ≤ ch) && decide (ch ≤ d.stopC)
  | Kind.rangeExplicitList => containsC d.chars ch
  | _ => false

/-- Modelled from the spec: `AlphaBucketClassifier.lookup` on the upper-cased
leading character (§4.5): first match in configured order wins; with no match
the character itself is the label (identity fallback). -/
def alphaLookupChar (ds : List AlphaDescriptor) (c : Char) : String :=
  let ch := c.toUpper
  match ds.find? (alphaMatches ch) with
  | some d => d.label
  | none => String.mk [ch]

/-- Modelled from the spec: the whole alpha pipeline on a text value — parse
the configured labels, take the text's leading character, look it up.  `none`
on a configuration parse error or empty text. -/
def alphaLookup (cfg : List String) (text : String) : Option String :=
  match parseAlphaCfg cfg with
  | none => none
  | some ds => text.toList.head?.map (fun c => alphaLookupChar ds c)

end Bucket

namespace ArtResizer

/-- Resizing method identifier `PIL` (`artresizer.py` line 31). -/
def PIL : Nat := 1

/-- Resizing method identifier `IMAGEMAGICK` (`artresizer.py` line 32). -/
def IMAGEMAGICK : Nat := 2

/-- Resizing method identifier `WEBPROXY` (`artresizer.py` line 33). -/
def WEBPROXY : Nat := 3

/-- The proxy base URL (`artresizer.py` line 35). -/
def PROXY_URL : String := "http://images.weserv.nl/"

/-- The keys of the `BACKEND_FUNCS` dictionary (`artresizer.py` lines 104–107):
the two local resizing methods. -/
def BACKEND_KEYS : List Nat := [PIL, IMAGEMAGICK]

/-- Embedding of `ArtResizer.local` (`artresizer.py` lines 161–166): whether `method[0]` is a
key of `BACKEND_FUNCS`.  (`local` is a Lean keyword, hence the name.) -/
def isLocal (method0 : Nat) : Bool :=
  BACKEND_KEYS.any (fun k => decide (k = method0))

/-- Whether a byte is in `urllib.quote_plus`'s always-safe set
(letters, digits, `_`, `.`, `-`). -/
def safeChar (c : Char) : Bool :=
  c.isAlphanum || decide (c = '_') || decide (c = '.') || decide (c = '-')

/-- Upper-case hexadecimal digit of a value below 16. -/
def hexDigit (n : Nat) : Char :=
  if n < 10 then Char.ofNat (48 + n) else Char.ofNat (55 + n)

/-- Python `urllib.quote_plus` on one character: space becomes `+`, safe characters
pass through, anything else is percent-encoded (byte value, two upper-case hex
digits). -/
def quoteChar (c : Char) : List Char :=
  if c = ' ' then ['+']
  else if safeChar c then [c]
  else ['%', hexDigit (c.toNat % 256 / 16), hexDigit (c.toNat % 256 % 16)]

/-- Python `urllib.quote_plus` on a character list. -/
def quotePlus (cs : List Char) : List Char :=
  (cs.map quoteChar).flatten

/-- Whether `p` is a leading run of `cs`. -/
def leadsWith : List Char → List Char → Bool
  | [], _ => true
  | _ :: _, [] => false
  | p :: ps, c :: cs => decide (p = c) && leadsWith ps cs

/-- Python `str.replace(pat, "")` on character lists: delete every
non-overlapping occurrence of a non-empty pattern, scanning left to right.
The first argument is fuel (the list length suffices). -/
def dropOccs : Nat → List Char → List Char → List Char
  | 0, _, cs => cs
  | _ + 1, _, [] => []
  | n + 1, pat, c :: cs =>
    if leadsWith pat (c :: cs) && decide (pat ≠ []) then
      dropOccs n pat ((c :: cs).drop pat.length)
    else c :: dropOccs n pat cs

/-- Python `url.replace("http://", "")` on a string. -/
def stripHttp (url : String) : List Char :=
  dropOccs url.toList.length "http://".toList url.toList

/-- Embedding of `resize_url` (`artresizer.py` lines 40–47): the proxied image URL
`PROXY_URL?url=<quoted stripped url>&w=<maxwidth>`.  `urllib.urlencode` is
modelled with the fields in the order `url`, `w` and `quote_plus` escaping. -/
def resize_url (url : String) (maxwidth : Nat) : String :=
  String.mk (PROXY_URL.toList ++ ['?'] ++
    "url=".toList ++ quotePlus (stripHttp url) ++
    "&w=".toList ++ quotePlus (toString maxwidth).toList)

/-- Embedding of `ArtResizer.resize` (`artresizer.py` lines 140–149): for a local method,
delegate to the backend function selected by `method[0]` from `BACKEND_FUNCS`;
otherwise (WEBPROXY) return `path_in` unmodified.  The backend functions do
file I/O, so they are an abstract parameter here. -/
def resize (backends : Nat → Nat → String → Option String → String)
    (method0 : Nat) (maxwidth : Nat) (path_in : String) (path_out : Option String) : String :=
  if isLocal method0 then backends method0 maxwidth path_in path_out else path_in

/-- Embedding of `ArtResizer.proxy_url` (`artresizer.py` lines 151–159): for a local method
return the URL unmodified, otherwise return the proxied URL. -/
def proxy_url (method0 : Nat) (maxwidth : Nat) (url : String) : String :=
  if isLocal method0 then url else resize_url url maxwidth

/-- Number of occurrences of a character in a character list. -/
def countCh (a : Char) (cs : List Char) : Nat :=
  (cs.filter (fun x => decide (x = a))).length

end ArtResizer

theorem repoTest_alpha1 : Bucket.alphaLookup ["ABCD", "FGH", "IJKL"] "garry" = some "FGH" := by decide

theorem repoTest_alpha2 : Bucket.alphaLookup ["A-D", "F-H", "I-Z"] "garry" = some "F-H" := by decide

theorem repoTest_alpha3 : Bucket.alphaLookup ["ABCD", "FGH", "IJKL"] "errol" = some "E" := by decide

theorem repoTest_alpha4 : Bucket.alphaLookup [] "errol" = some "E" := by decide

theorem repoTest_resizeUrl1 :
    ArtResizer.resize_url "" 100 = "http://images.weserv.nl/?url=&w=100" := by decide

theorem repoTest_resizeUrl2 :
    ArtResizer.resize_url "http://a b/c" 5 =
      "http://images.weserv.nl/?url=a+b%2Fc&w=5" := by decide

theorem repoTest_parse1 :
    Bucket.parseYearLabel "1950s" =
      some ⟨"1950s", Bucket.Kind.singleDecadeSuffixed, 1950, none, 0⟩ := by decide

theorem repoTest_parse2 :
    Bucket.parseYearLabel "1962-81" =
      some ⟨"1962-81", Bucket.Kind.rangeFromTo, 1962, some 1981, 2⟩ := by decide

theorem repoTest_parse3 :
    Bucket.parseYearLabel "1950,51,52,53" =
      some ⟨"1950,51,52,53", Bucket.Kind.rangeExplicitList, 1950, some 1953, 0⟩ := by decide

theorem repoTest_parse4 :
    Bucket.parseYearLabel "1960-1969" =
      some ⟨"1960-1969", Bucket.Kind.rangeFromTo, 1960, some 1969, 4⟩ := by decide

theorem repoTest_year1 : Bucket.yearLookup ["1950s", "1970s"] 2014 false 1959 = some "1950s" := by decide
theorem repoTest_year2 : Bucket.yearLookup ["1950s", "1970s"] 2014 false 1969 = some "1950s" := by decide
theorem repoTest_year3 : Bucket.yearLookup ["1950", "1970"] 2014 false 2014 = some "1970" := by decide
theorem repoTest_year4 : Bucket.yearLookup ["1950", "1970"] 2014 false 2015 = some "2015" := by decide
theorem repoTest_year5 : Bucket.yearLookup ["1950-59", "1960-1969"] 2014 false 1959 = some "1950-59" := by decide
theorem repoTest_year6 : Bucket.yearLookup ["1950-59", "1960-1969"] 2014 false 1969 = some "1960-1969" := by decide
theorem repoTest_year7 : Bucket.yearLookup ["1950,51,52,53"] 2014 false 1953 = some "1950,51,52,53" := by decide
theorem repoTest_year8 : Bucket.yearLookup ["1950,51,52,53"] 2014 false 1974 = some "1974" := by decide
theorem repoTest_year9 : Bucket.yearLookup ["1950-59", "1960-69"] 2014 false 1974 = some "1974" := by decide
theorem repoTest_year10 : Bucket.yearLookup [] 2014 false 1974 = some "1974" := by decide
theorem repoTest_extrapolate1 : Bucket.yearLookup ["1950-59", "1960-69"] 2014 true 1914 = some "1910-19" := by decide
theorem repoTest_extrapolate2 : Bucket.yearLookup ["1962-81", "2002", "2012"] 2014 true 1983 = some "1982" := by decide
theorem repoTest_extrapolate3 : Bucket.yearLookup ["1962-81", "2002", "2012-14"] 2014 true 1983 = some "1982-01" := by decide
theorem repoTest_extrapolate4 : Bucket.yearLookup ["1932", "1942", "1952", "1962-81", "2002"] 2014 true 1975 = some "1962-81" := by decide

namespace Bucket

theorem find?_first {β : Type} (f : β → Bool) :
    ∀ (l : List β) (i : Nat) (p : β), l[i]? = some p → f p = true →
      (l.take i).all (fun q => !f q) = true → l.find? f = some p
  | [], i, p => by simp
  | x :: xs, 0, p => by
    intro h hf _
    simp only [List.getElem?_cons_zero, Option.some.injEq] at h
    subst h
    simp [List.find?_cons_of_pos _ hf]
  | x :: xs, i + 1, p => by
    intro h hf hall
    simp only [List.getElem?_cons_succ] at h
    simp only [List.take_succ_cons, List.all_cons, Bool.and_eq_true, Bool.not_eq_true'] at hall
    rw [List.find?_cons_of_neg _ (by simp [hall.1])]
    exact find?_first f xs i p h hf hall.2

theorem find?_none {β : Type} (f : β → Bool) :
    ∀ l : List β, l.all (fun q => !f q) = true → l.find? f = none
  | [], _ => rfl
  | x :: xs, h => by
    simp only [List.all_cons, Bool.and_eq_true, Bool.not_eq_true'] at h
    rw [List.find?_cons_of_neg _ (by simp [h.1])]
    exact find?_none f xs h.2

theorem firstIdx_append_left {α : Type} [DecidableEq α] (l2 : List α) :
    ∀ (l1 : List α) (a : α), a ∈ l1 → firstIdx (l1 ++ l2) a = firstIdx l1 a
  | [], a => by simp
  | x :: xs, a => by
    intro h
    by_cases hx : x = a
    · simp [firstIdx, hx]
    · have : a ∈ xs := by
        rcases List.mem_cons.mp h with h' | h'
        · exact absurd h'.symm hx
        · exact h'
      simp [firstIdx, hx, firstIdx_append_left l2 xs a this]

theorem firstIdx_append_right {α : Type} [DecidableEq α] (l2 : List α) :
    ∀ (l1 : List α) (a : α), a ∉ l1 → firstIdx (l1 ++ l2) a = l1.length + firstIdx l2 a
  | [], a => by simp
  | x :: xs, a => by
    intro h
    have hx : ¬ x = a := fun he => h (he ▸ List.mem_cons_self x xs)
    have hxs : a ∉ xs := fun hm => h (List.mem_cons_of_mem x hm)
    simp [firstIdx, hx, firstIdx_append_right l2 xs a hxs]
    omega

theorem firstIdx_lt_length {α : Type} [DecidableEq α] :
    ∀ (l : List α) (a : α), a ∈ l → firstIdx l a < l.length
  | [], a => by simp
  | x :: xs, a => by
    intro h
    by_cases hx : x = a
    · simp [firstIdx, hx]
    · have : a ∈ xs := by
        rcases List.mem_cons.mp h with h' | h'
        · exact absurd h'.symm hx
        · exact h'
      have := firstIdx_lt_length xs a this
      simp [firstIdx, hx]
      omega

theorem pickFold_spec {α : Type} [DecidableEq α] (xs : List α) :
    ∀ (rest pre : List α) (best : α), xs = pre ++ rest → best ∈ pre →
      (∀ u ∈ pre, domP xs best u) →
      pickFold xs best rest ∈ xs ∧ ∀ u ∈ xs, domP xs (pickFold xs best rest) u := by
  intro rest
  induction rest with
  | nil =>
    intro pre best hxs hmem hinv
    have hpre : xs = pre := by simpa using hxs
    subst hpre
    exact ⟨hmem, by simpa [pickFold] using hinv⟩
  | cons v rest ih =>
    intro pre best hxs hmem hinv
    have hstep : pickFold xs best (v :: rest) =
        pickFold xs (if countEq xs best < countEq xs v then v else best) rest := by
      simp [pickFold]
    rw [hstep]
    apply ih (pre ++ [v])
    · rw [hxs]; simp
    · by_cases hc : countEq xs best < countEq xs v
      · rw [if_pos hc]
        exact List.mem_append_right _ (by simp)
      · rw [if_neg hc]
        exact List.mem_append_left _ hmem
    · intro u hu
      simp only [domP] at hinv ⊢
      rcases List.mem_append.mp hu with hu | hu
      · by_cases hc : countEq xs best < countEq xs v
        · rw [if_pos hc]
          rcases hinv u hu with h | ⟨heq, _⟩
          · exact Or.inl (Nat.lt_trans h hc)
          · exact Or.inl (heq ▸ hc)
        · rw [if_neg hc]
          exact hinv u hu
      · have hv : u = v := by simpa using hu
        subst hv
        by_cases hc : countEq xs best < countEq xs u
        · rw [if_pos hc]
          exact Or.inr ⟨rfl, Nat.le_refl _⟩
        · rw [if_neg hc]
          rcases Nat.lt_or_ge (countEq xs u) (countEq xs best) with hlt | hge
          · exact Or.inl hlt
          · have heq : countEq xs u = countEq xs best :=
              Nat.le_antisymm (Nat.not_lt.mp hc) hge
            refine Or.inr ⟨heq, ?_⟩
            by_cases hvpre : u ∈ pre
            · rcases hinv u hvpre with h | ⟨_, h⟩
              · omega
              · exact h
            · have h1 : firstIdx xs u = pre.length := by
                rw [hxs, firstIdx_append_right _ pre u hvpre]
                simp [firstIdx]
              have h2 : firstIdx xs best < pre.length := by
                rw [hxs, firstIdx_append_left _ pre best hmem]
                exact firstIdx_lt_length pre best hmem
              omega

theorem pickDominant_spec {α : Type} [DecidableEq α] (xs : List α) (k : α)
    (h : pickDominant xs = some k) : k ∈ xs ∧ ∀ u ∈ xs, domP xs k u := by
  match xs, h with
  | x :: rest, h =>
    simp only [pickDominant, Option.some.injEq] at h
    subst h
    refine pickFold_spec (x :: rest) rest [x] x (by simp) (by simp) ?_
    intro u hu
    have : u = x := by simpa using hu
    subst this
    exact Or.inr ⟨rfl, Nat.le_refl _⟩

end Bucket

namespace Bucket

theorem resolveEnds_get? (cy : Int) :
    ∀ (ds : List BucketDescriptor) (i : Nat) (d : BucketDescriptor), ds[i]? = some d →
      (resolveEnds cy ds)[i]? = some (d,
        match d.stop with
        | some e => e
        | none =>
          match ds[i + 1]? with
          | some nxt => nxt.start - 1
          | none => max d.start cy)
  | [], _, _ => by simp
  | [d0], 0, d => by
    intro h
    simp only [List.getElem?_cons_zero, Option.some.injEq] at h
    subst h
    cases hs : d0.stop <;> simp [resolveEnds, hs]
  | [d0], i + 1, d => by
    intro h
    simp at h
  | d0 :: d1 :: rest, 0, d => by
    intro h
    simp only [List.getElem?_cons_zero, Option.some.injEq] at h
    subst h
    cases hs : d0.stop <;> simp [resolveEnds, hs]
  | d0 :: d1 :: rest, i + 1, d => by
    intro h
    simp only [List.getElem?_cons_succ] at h
    have ih := resolveEnds_get? cy (d1 :: rest) i d h
    simpa [resolveEnds] using ih

theorem lookupPure_of_find? (ds : List BucketDescriptor) (cy : Int) (extrap : Bool) (y : Int)
    (p : BucketDescriptor × Int) (h : (resolveEnds cy ds).find? (covers y) = some p) :
    lookupPure ds cy extrap y = p.1.label := by
  simp [lookupPure, firstMatch, h]

/-- C3, amended: `lookup` resolves the effective end of each open descriptor at
call time — a non-last open descriptor ends at the next descriptor's start − 1,
a last open descriptor ends at `max start currentYear`, so the final open
bucket never covers a query year beyond the later of its own start and the
current year (the original "never beyond the current year" fails when the
bucket's start itself lies beyond the current year); in particular
`["1950s","1970s"]` gives `lookup 1969 = "1950s"`, and `["1950","1970"]` with
current year 2014 gives `lookup 2014 = "1970"` and `lookup 2015 = "2015"`. -/
theorem claim_C3 :
    (∀ (ds : List BucketDescriptor) (cy : Int) (i : Nat) (d : BucketDescriptor),
        ds[i]? = some d →
        (resolveEnds cy ds)[i]? = some (d,
          match d.stop with
          | some e => e
          | none =>
            match ds[i + 1]? with
            | some nxt => nxt.start - 1
            | none => max d.start cy)) ∧
    (∀ (ds : List BucketDescriptor) (cy : Int) (i : Nat) (d : BucketDescriptor) (y : Int),
        ds[i]? = some d → d.stop = none → ds[i + 1]? = none →
        covers y (d, max d.start cy) = true → y ≤ max d.start cy) ∧
    yearLookup ["1950s", "1970s"] 2014 false 1969 = some "1950s" ∧
    yearLookup ["1950", "1970"] 2014 false 2014 = some "1970" ∧
    yearLookup ["1950", "1970"] 2014 false 2015 = some "2015" := by
  refine ⟨fun ds cy => resolveEnds_get? cy ds, ?_, by decide, by decide, by decide⟩
  intro ds cy i d y _ _ _ hc
  simp only [covers, Bool.and_eq_true, decide_eq_true_eq] at hc
  exact hc.2

theorem claim_C3_witness :
    ([⟨"1950", Kind.singlePlain, 1950, none, 0⟩, ⟨"1970", Kind.singlePlain, 1970, none, 0⟩] :
        List BucketDescriptor)[1]? = some ⟨"1970", Kind.singlePlain, 1970, none, 0⟩ ∧
    (resolveEnds 2014 [⟨"1950", Kind.singlePlain, 1950, none, 0⟩,
        ⟨"1970", Kind.singlePlain, 1970, none, 0⟩])[1]? =
      some (⟨"1970", Kind.singlePlain, 1970, none, 0⟩, 2014) := by
  refine ⟨by decide, ?_⟩
  have h := claim_C3.1
    [⟨"1950", Kind.singlePlain, 1950, none, 0⟩, ⟨"1970", Kind.singlePlain, 1970, none, 0⟩]
    2014 1 ⟨"1970", Kind.singlePlain, 1970, none, 0⟩ (by decide)
  exact h

/-- C3, counterexample: with configuration `["1950", "2050"]` and current year
2014, the last open descriptor's effective end is `max 2050 2014 = 2050`, so
its bucket covers the query year 2050 — which lies beyond the current year —
and lookup answers it by a direct match, refuting "the final open bucket never
covers a query year beyond the current year". -/
theorem claim_C3_counterexample :
    (parseYearCfg ["1950", "2050"]).map (fun ds => resolveEnds 2014 ds) =
      some [(⟨"1950", Kind.singlePlain, 1950, none, 0⟩, 2049),
            (⟨"2050", Kind.singlePlain, 2050, none, 0⟩, 2050)] ∧
    (parseYearCfg ["1950", "2050"]).map (fun ds => firstMatch 2050 (resolveEnds 2014 ds)) =
      some (some "2050") ∧
    (2014 : Int) < 2050 := by
  refine ⟨by decide, by decide, by decide⟩

/-- C4: `lookup` scans descriptors in configured order and returns the label of
the first whose `[start, effective_end]` interval contains the year, and this
direct match takes precedence over extrapolation for any extrapolation flag;
in particular `["1932","1942","1952","1962-81","2002"]` with extrapolation
enabled gives `lookup 1975 = "1962-81"`. -/
theorem claim_C4 :
    (∀ (ds : List BucketDescriptor) (cy : Int) (extrap : Bool) (y : Int) (i : Nat)
        (p : BucketDescriptor × Int),
        (resolveEnds cy ds)[i]? = some p → covers y p = true →
        ((resolveEnds cy ds).take i).all (fun q => !covers y q) = true →
        lookupPure ds cy extrap y = p.1.label) ∧
    yearLookup ["1932", "1942", "1952", "1962-81", "2002"] 2014 true 1975 = some "1962-81" := by
  refine ⟨?_, by decide⟩
  intro ds cy extrap y i p h1 h2 h3
  exact lookupPure_of_find? ds cy extrap y p (find?_first (covers y) _ i p h1 h2 h3)

theorem claim_C4_witness :
    (resolveEnds 2014 [⟨"1932", Kind.singlePlain, 1932, none, 0⟩,
        ⟨"1942", Kind.singlePlain, 1942, none, 0⟩, ⟨"1952", Kind.singlePlain, 1952, none, 0⟩,
        ⟨"1962-81", Kind.rangeFromTo, 1962, some 1981, 2⟩,
        ⟨"2002", Kind.singlePlain, 2002, none, 0⟩])[3]? =
      some (⟨"1962-81", Kind.rangeFromTo, 1962, some 1981, 2⟩, 1981) ∧
    lookupPure [⟨"1932", Kind.singlePlain, 1932, none, 0⟩,
        ⟨"1942", Kind.singlePlain, 1942, none, 0⟩, ⟨"1952", Kind.singlePlain, 1952, none, 0⟩,
        ⟨"1962-81", Kind.rangeFromTo, 1962, some 1981, 2⟩,
        ⟨"2002", Kind.singlePlain, 2002, none, 0⟩] 2014 true 1975 = "1962-81" := by
  refine ⟨by decide, ?_⟩
  exact claim_C4.1 _ 2014 true 1975 3
    (⟨"1962-81", Kind.rangeFromTo, 1962, some 1981, 2⟩, 1981)
    (by decide) (by decide) (by decide)

/-- C6: when no configured descriptor matches and extrapolation is disabled or
impossible (fewer than two buckets, including the empty list), `lookup` always
returns the query year formatted as a plain label; in particular with
`["1950-59","1960-69"]` or `[]` the lookup of 1974 returns `"1974"`. -/
theorem claim_C6 :
    (∀ (ds : List BucketDescriptor) (cy : Int) (extrap : Bool) (y : Int),
        firstMatch y (resolveEnds cy ds) = none →
        extrap = false ∨ ds.length < 2 →
        lookupPure ds cy extrap y = toString y) ∧
    yearLookup ["1950-59", "1960-69"] 2014 false 1974 = some "1974" ∧
    yearLookup [] 2014 false 1974 = some "1974" ∧
    yearLookup ["1950-59"] 2014 true 1974 = some "1974" := by
  refine ⟨?_, by decide, by decide, by decide⟩
  intro ds cy extrap y hm hd
  unfold lookupPure
  rw [hm]
  rcases hd with hd | hd
  · subst hd
    simp
  · have hfalse : decide (2 ≤ ds.length) = false := by
      simp [Nat.not_le.mpr hd]
    simp [hfalse]

theorem claim_C6_witness :
    firstMatch 1974 (resolveEnds 2014 ([] : List BucketDescriptor)) = none ∧
    (true = false ∨ ([] : List BucketDescriptor).length < 2) ∧
    lookupPure [] 2014 true 1974 = toString (1974 : Int) := by
  refine ⟨by decide, Or.inr (by decide), ?_⟩
  exact claim_C6.1 [] 2014 true 1974 (by decide) (Or.inr (by decide))

end Bucket

namespace Bucket

/-- C1, counterexample: for `["1950-59","1960-69"]` (dominant width 10) the
extrapolated bucket for year 1914 has start 1910 but end 1919 — not
`generated_start + width = 1920` as the claim's end formula states; with that
formula the label would be `"1910-20"`, while lookup actually returns
`"1910-19"`. -/
theorem claim_C1_counterexample :
    yearLookup ["1950-59", "1960-69"] 2014 true 1914 = some "1910-19" ∧
    (parseYearCfg ["1950-59", "1960-69"]).map (fun ds => extrapolateBucket ds 1914) =
      some (some (⟨"1910-19", Kind.rangeFromTo, 1910, some 1919, 2⟩, 10)) ∧
    ¬ ((1919 : Int) = 1910 + 10) ∧
    fmtEnd (1910 + 10) 2 = "20" ∧ ¬ ("1910-19" = "1910-" ++ "20") := by
  refine ⟨by decide, by decide, by decide, by decide, by decide⟩

/-- C1, amended: for a range-style extrapolation the generated start is
`anchor_start + fdiv (year − anchor_start) width * width` (floor division
toward negative infinity, so alignment also holds for years before the anchor:
the generated bucket always satisfies `start ≤ year < start + width`), the
generated end is `generated_start + width − 1` formatted with the anchor's
`end_digit_width`, and for `["1950-59","1960-69"]` the lookup of 1914 returns
`"1910-19"`. -/
theorem claim_C1 :
    (∀ (ds : List BucketDescriptor) (y : Int) (k : Kind) (w : Int) (a : BucketDescriptor),
        dominantStyle ds = some k → isRangeKind k = true →
        dominantWidth ds k = some w → anchorOf ds k = some a →
        extrapolateBucket ds y =
          some (⟨toString (a.start + (y - a.start).fdiv w * w) ++ "-" ++
                  fmtEnd (a.start + (y - a.start).fdiv w * w + w - 1) a.endDigitWidth,
                k, a.start + (y - a.start).fdiv w * w,
                some (a.start + (y - a.start).fdiv w * w + w - 1), a.endDigitWidth⟩, w)) ∧
    (∀ (y a w : Int), 0 < w →
        a + (y - a).fdiv w * w ≤ y ∧ y < a + (y - a).fdiv w * w + w) ∧
    yearLookup ["1950-59", "1960-69"] 2014 true 1914 = some "1910-19" := by
  refine ⟨?_, ?_, by decide⟩
  · intro ds y k w a h1 h2 h3 h4
    simp [extrapolateBucket, h1, h2, h3, h4]
  · intro y a w hw
    have h1 := Int.fmod_add_fdiv (y - a) w
    have h2 : (y - a).fmod w = (y - a) % w := Int.fmod_eq_emod _ (le_of_lt hw)
    have h3 : 0 ≤ (y - a) % w := Int.emod_nonneg _ (by omega)
    have h4 : (y - a) % w < w := Int.emod_lt_of_pos _ hw
    constructor <;> nlinarith [h1, h2, h3, h4]

theorem claim_C1_witness :
    dominantStyle [⟨"1950-59", Kind.rangeFromTo, 1950, some 1959, 2⟩,
        ⟨"1960-69", Kind.rangeFromTo, 1960, some 1969, 2⟩] = some Kind.rangeFromTo ∧
    isRangeKind Kind.rangeFromTo = true ∧
    dominantWidth [⟨"1950-59", Kind.rangeFromTo, 1950, some 1959, 2⟩,
        ⟨"1960-69", Kind.rangeFromTo, 1960, some 1969, 2⟩] Kind.rangeFromTo = some 10 ∧
    anchorOf [⟨"1950-59", Kind.rangeFromTo, 1950, some 1959, 2⟩,
        ⟨"1960-69", Kind.rangeFromTo, 1960, some 1969, 2⟩] Kind.rangeFromTo =
      some ⟨"1950-59", Kind.rangeFromTo, 1950, some 1959, 2⟩ ∧
    extrapolateBucket [⟨"1950-59", Kind.rangeFromTo, 1950, some 1959, 2⟩,
        ⟨"1960-69", Kind.rangeFromTo, 1960, some 1969, 2⟩] 1914 =
      some (⟨"1910-19", Kind.rangeFromTo, 1910, some 1919, 2⟩, 10) ∧
    (0 : Int) < 10 ∧ (1910 : Int) ≤ 1914 ∧ (1914 : Int) < 1910 + 10 := by
  have hgen := claim_C1.1
    [⟨"1950-59", Kind.rangeFromTo, 1950, some 1959, 2⟩,
     ⟨"1960-69", Kind.rangeFromTo, 1960, some 1969, 2⟩]
    1914 Kind.rangeFromTo 10 ⟨"1950-59", Kind.rangeFromTo, 1950, some 1959, 2⟩
    (by decide) (by decide) (by decide) (by decide)
  have hcov := claim_C1.2.1 1914 1950 10 (by decide)
  refine ⟨by decide, by decide, by decide, by decide, ?_, by decide, ?_, ?_⟩
  · exact hgen.trans (by decide)
  · have := hcov.1
    omega
  · have := hcov.2
    omega

/-- C2: when extrapolating, the dominant style is the kind with the highest
count among configured descriptors (ties broken by earliest first occurrence in
configured order — `domP`), and the dominant width is chosen the same way:
among range-style widths, or among consecutive same-style start spacings for
single styles; consequently `["1962-81","2002","2012"]` gives
`lookup 1983 = "1982"` and `["1962-81","2002","2012-14"]` gives
`lookup 1983 = "1982-01"`. -/
theorem claim_C2 :
    (∀ (ds : List BucketDescriptor) (k : Kind),
        dominantStyle ds = some k →
        k ∈ ds.map (fun d => d.kind) ∧
        ∀ v ∈ ds.map (fun d => d.kind), domP (ds.map (fun d => d.kind)) k v) ∧
    (∀ (ds : List BucketDescriptor) (k : Kind) (w : Int),
        isRangeKind k = true → dominantWidth ds k = some w →
        w ∈ (ds.filter (fun d => decide (d.kind = k))).map widthOfRange ∧
        ∀ v ∈ (ds.filter (fun d => decide (d.kind = k))).map widthOfRange,
          domP ((ds.filter (fun d => decide (d.kind = k))).map widthOfRange) w v) ∧
    (∀ (ds : List BucketDescriptor) (k : Kind) (w : Int) (sp : List Int),
        isRangeKind k = false →
        singleSpacings ((ds.filter (fun d => decide (d.kind = k))).map (fun d => d.start)) = sp →
        sp ≠ [] → dominantWidth ds k = some w →
        w ∈ sp ∧ ∀ v ∈ sp, domP sp w v) ∧
    yearLookup ["1962-81", "2002", "2012"] 2014 true 1983 = some "1982" ∧
    yearLookup ["1962-81", "2002", "2012-14"] 2014 true 1983 = some "1982-01" := by
  refine ⟨?_, ?_, ?_, by decide, by decide⟩
  · intro ds k h
    unfold dominantStyle at h
    exact pickDominant_spec _ k h
  · intro ds k w hr h
    unfold dominantWidth at h
    rw [if_pos hr] at h
    exact pickDominant_spec _ w h
  · intro ds k w sp hr hsp hne h
    unfold dominantWidth at h
    rw [if_neg (by simp [hr])] at h
    rw [hsp] at h
    cases sp with
    | nil => exact absurd rfl hne
    | cons a t => exact pickDominant_spec _ w h

theorem claim_C2_witness :
    dominantStyle [⟨"1962-81", Kind.rangeFromTo, 1962, some 1981, 2⟩,
        ⟨"2002", Kind.singlePlain, 2002, none, 0⟩,
        ⟨"2012", Kind.singlePlain, 2012, none, 0⟩] = some Kind.singlePlain ∧
    (Kind.singlePlain ∈ [Kind.rangeFromTo, Kind.singlePlain, Kind.singlePlain] ∧
      ∀ v ∈ [Kind.rangeFromTo, Kind.singlePlain, Kind.singlePlain],
        domP [Kind.rangeFromTo, Kind.singlePlain, Kind.singlePlain] Kind.singlePlain v) ∧
    dominantWidth [⟨"1962-81", Kind.rangeFromTo, 1962, some 1981, 2⟩,
        ⟨"2002", Kind.singlePlain, 2002, none, 0⟩,
        ⟨"2012-14", Kind.rangeFromTo, 2012, some 2014, 2⟩] Kind.rangeFromTo = some 20 ∧
    ((20 : Int) ∈ [(20 : Int), 3] ∧ ∀ v ∈ [(20 : Int), 3], domP [(20 : Int), 3] 20 v) := by
  have h1 := claim_C2.1
    [⟨"1962-81", Kind.rangeFromTo, 1962, some 1981, 2⟩,
     ⟨"2002", Kind.singlePlain, 2002, none, 0⟩,
     ⟨"2012", Kind.singlePlain, 2012, none, 0⟩] Kind.singlePlain (by decide)
  have h2 := claim_C2.2.1
    [⟨"1962-81", Kind.rangeFromTo, 1962, some 1981, 2⟩,
     ⟨"2002", Kind.singlePlain, 2002, none, 0⟩,
     ⟨"2012-14", Kind.rangeFromTo, 2012, some 2014, 2⟩] Kind.rangeFromTo 20
    (by decide) (by decide)
  refine ⟨by decide, ⟨by decide, ?_⟩, by decide, ⟨by decide, ?_⟩⟩
  · simpa using h1.2
  · simpa using h2.2

end Bucket

namespace Bucket

/-- C5: the year `RangeParser` resolves an abbreviated token (shorter than the
reference token) by right-aligned substitution into the low-order digits of the
reference year, takes an equal-width end token literally, and consequently
`"1950,51,52,53"` covers 1953, `"1950-59"` covers 1959 and `"1960-1969"`
covers 1969. -/
theorem claim_C5 :
    (∀ (refVal refLen : Nat) (tok : List Char) (v : Nat),
        digitsToNat? tok = some v →
        resolveToken refVal refLen tok =
          some (if tok.length < refLen then substLow refVal tok.length v else v)) ∧
    (∀ (ref k v : Nat), substLow ref k v = ref - ref % 10 ^ k + v) ∧
    (∀ (s : String) (l r : List Char) (lv rv : Nat),
        splitOnC '-' s.toList = [l, r] →
        containsC s.toList ',' = false → containsC s.toList '-' = true →
        digitsToNat? l = some lv → digitsToNat? r = some rv →
        parseYearLabel s = some ⟨s, Kind.rangeFromTo, (lv : Int),
          some ((if r.length < l.length then substLow lv r.length rv else rv : Nat) : Int),
          r.length⟩) ∧
    parseYearLabel "1950,51,52,53" =
      some ⟨"1950,51,52,53", Kind.rangeExplicitList, 1950, some 1953, 0⟩ ∧
    parseYearLabel "1950-59" = some ⟨"1950-59", Kind.rangeFromTo, 1950, some 1959, 2⟩ ∧
    parseYearLabel "1960-1969" = some ⟨"1960-1969", Kind.rangeFromTo, 1960, some 1969, 4⟩ ∧
    yearLookup ["1950,51,52,53"] 2014 false 1953 = some "1950,51,52,53" ∧
    yearLookup ["1950-59"] 2014 false 1959 = some "1950-59" ∧
    yearLookup ["1960-1969"] 2014 false 1969 = some "1960-1969" := by
  refine ⟨?_, ?_, ?_, by decide, by decide, by decide, by decide, by decide, by decide⟩
  · intro refVal refLen tok v h
    simp [resolveToken, h]
  · intro ref k v
    rfl
  · intro s l r lv rv hsplit hcomma hdash hl hr
    simp only [String.toList] at hsplit hcomma hdash
    simp [parseYearLabel, parseYearChars, hsplit, hcomma, hdash, hl, hr]

theorem claim_C5_witness :
    digitsToNat? ['5', '1'] = some 51 ∧
    resolveToken 1950 4 ['5', '1'] = some (substLow 1950 2 51) ∧
    splitOnC '-' "1950-59".toList = [['1', '9', '5', '0'], ['5', '9']] ∧
    parseYearLabel "1950-59" = some ⟨"1950-59", Kind.rangeFromTo, 1950, some 1959, 2⟩ := by
  have h1 := claim_C5.1 1950 4 ['5', '1'] 51 (by decide)
  have h3 := claim_C5.2.2.1 "1950-59" ['1', '9', '5', '0'] ['5', '9'] 1950 59
    (by decide) (by decide) (by decide) (by decide) (by decide)
  refine ⟨by decide, ?_, by decide, ?_⟩
  · exact h1.trans (by decide)
  · exact h3.trans (by decide)

/-- C7: `AlphaBucketClassifier.lookup` upper-cases the leading character, scans
descriptors in configured order, matches a from-to descriptor by
`start ≤ ch ≤ end` and an explicit-list descriptor by membership anywhere in
its character set (the label's characters), returns the first match's label,
and falls back to the character itself; so `["ABCD","FGH","IJKL"]` gives
`lookup "garry" = "FGH"` and `lookup "errol" = "E"`. -/
theorem claim_C7 :
    (∀ (ds : List AlphaDescriptor) (c : Char) (i : Nat) (d : AlphaDescriptor),
        ds[i]? = some d → alphaMatches c.toUpper d = true →
        (ds.take i).all (fun q => !alphaMatches c.toUpper q) = true →
        alphaLookupChar ds c = d.label) ∧
    (∀ (ds : List AlphaDescriptor) (c : Char),
        ds.all (fun d => !alphaMatches c.toUpper d) = true →
        alphaLookupChar ds c = String.mk [c.toUpper]) ∧
    (∀ (d : AlphaDescriptor) (ch : Char), d.kind = Kind.rangeFromTo →
        (alphaMatches ch d = true ↔ (d.startC ≤ ch ∧ ch ≤ d.stopC))) ∧
    (∀ (d : AlphaDescriptor) (ch : Char), d.kind = Kind.rangeExplicitList →
        (alphaMatches ch d = true ↔ ch ∈ d.chars)) ∧
    (∀ (s : String) (d : AlphaDescriptor), parseAlphaLabel s = some d → d.chars = s.toList) ∧
    alphaLookup ["ABCD", "FGH", "IJKL"] "garry" = some "FGH" ∧
    alphaLookup ["ABCD", "FGH", "IJKL"] "errol" = some "E" := by
  refine ⟨?_, ?_, ?_, ?_, ?_, by decide, by decide⟩
  · intro ds c i d h1 h2 h3
    have hf := find?_first (alphaMatches c.toUpper) ds i d h1 h2 h3
    simp [alphaLookupChar, hf]
  · intro ds c h
    have hf := find?_none (alphaMatches c.toUpper) ds h
    simp [alphaLookupChar, hf]
  · intro d ch hk
    simp [alphaMatches, hk]
  · intro d ch hk
    simp [alphaMatches, hk, containsC]
  · intro s d h
    unfold parseAlphaLabel parseAlphaChars at h
    split at h
    · split at h <;> (cases h; rfl)
    · simp at h
    · cases h; rfl

theorem claim_C7_witness :
    ([⟨"ABCD", Kind.rangeExplicitList, 'A', 'D', ['A', 'B', 'C', 'D']⟩,
      ⟨"FGH", Kind.rangeExplicitList, 'F', 'H', ['F', 'G', 'H']⟩,
      ⟨"IJKL", Kind.rangeExplicitList, 'I', 'L', ['I', 'J', 'K', 'L']⟩] :
        List AlphaDescriptor)[1]? =
      some ⟨"FGH", Kind.rangeExplicitList, 'F', 'H', ['F', 'G', 'H']⟩ ∧
    alphaLookupChar [⟨"ABCD", Kind.rangeExplicitList, 'A', 'D', ['A', 'B', 'C', 'D']⟩,
      ⟨"FGH", Kind.rangeExplicitList, 'F', 'H', ['F', 'G', 'H']⟩,
      ⟨"IJKL", Kind.rangeExplicitList, 'I', 'L', ['I', 'J', 'K', 'L']⟩] 'g' = "FGH" ∧
    alphaLookupChar [⟨"ABCD", Kind.rangeExplicitList, 'A', 'D', ['A', 'B', 'C', 'D']⟩,
      ⟨"FGH", Kind.rangeExplicitList, 'F', 'H', ['F', 'G', 'H']⟩,
      ⟨"IJKL", Kind.rangeExplicitList, 'I', 'L', ['I', 'J', 'K', 'L']⟩] 'e' = "E" := by
  refine ⟨by decide, ?_, ?_⟩
  · exact claim_C7.1 _ 'g' 1 ⟨"FGH", Kind.rangeExplicitList, 'F', 'H', ['F', 'G', 'H']⟩
      (by decide) (by decide) (by decide)
  · have h := claim_C7.2.1
      [⟨"ABCD", Kind.rangeExplicitList, 'A', 'D', ['A', 'B', 'C', 'D']⟩,
       ⟨"FGH", Kind.rangeExplicitList, 'F', 'H', ['F', 'G', 'H']⟩,
       ⟨"IJKL", Kind.rangeExplicitList, 'I', 'L', ['I', 'J', 'K', 'L']⟩] 'e' (by decide)
    exact h.trans (by decide)

end Bucket

namespace Bucket

theorem cacheFind_cons (y : Int) (e : CacheEntry) (c : List CacheEntry) (l : String)
    (h : cacheFind y (e :: c) = some l) (hc : cacheFind y c = none) : l = e.label := by
  unfold cacheFind at h hc
  cases hp : (decide (e.start ≤ y) && decide (y < e.start + e.width)) with
  | true =>
    have hfind : List.find?
        (fun e => decide (e.start ≤ y) && decide (y < e.start + e.width)) (e :: c) = some e :=
      List.find?_cons_of_pos _ hp
    rw [hfind] at h
    exact (Option.some.inj h).symm
  | false =>
    have hfind : List.find?
        (fun e => decide (e.start ≤ y) && decide (y < e.start + e.width)) (e :: c) =
        List.find? (fun e => decide (e.start ≤ y) && decide (y < e.start + e.width)) c :=
      List.find?_cons_of_neg _ (by simp [hp])
    rw [hfind] at h
    cases hfc : List.find? (fun e => decide (e.start ≤ y) && decide (y < e.start + e.width)) c with
    | none => rw [hfc] at h; cases h
    | some e2 => rw [hfc] at hc; cases hc

/-- C8: a lookup call never mutates the configured descriptor list — every
descriptor (label, kind, start, end, end digit width) is untouched — and the
only possible state change is prepending one fresh cache entry, built from an
extrapolated bucket that was generated because no configured descriptor
matched; the generated bucket is never merged into the configured list. -/
theorem claim_C8 : ∀ (st : YearClassifier) (y : Int),
    (lookupClass st y).2.config = st.config ∧
    (lookupClass st y).2.currentYear = st.currentYear ∧
    (lookupClass st y).2.extrapolate = st.extrapolate ∧
    (∀ i : Nat, ((lookupClass st y).2.config)[i]? = st.config[i]?) ∧
    ((lookupClass st y).2.cache = st.cache ∨
      ∃ d w, extrapolateBucket st.config y = some (d, w) ∧
        firstMatch y (resolveEnds st.currentYear st.config) = none ∧
        (lookupClass st y).2.cache = ⟨d.start, w, d.label⟩ :: st.cache) := by
  intro st y
  refine ⟨rfl, rfl, rfl, fun i => rfl, ?_⟩
  cases hm : firstMatch y (resolveEnds st.currentYear st.config) with
  | some lbl =>
    left
    simp [lookupClass, lookupCached, hm]
  | none =>
    cases hg : (st.extrapolate && decide (2 ≤ st.config.length)) with
    | false =>
      left
      simp [lookupClass, lookupCached, hm, hg]
    | true =>
      cases hcf : cacheFind y st.cache with
      | some l =>
        left
        simp [lookupClass, lookupCached, hm, hg, hcf]
      | none =>
        cases he : extrapolateBucket st.config y with
        | none =>
          left
          simp [lookupClass, lookupCached, hm, hg, hcf, he]
        | some dw =>
          obtain ⟨d, w⟩ := dw
          right
          refine ⟨d, w, rfl, rfl, ?_⟩
          simp [lookupClass, lookupCached, hm, hg, hcf, he]

/-- C9: for every classifier state (any configuration, current year,
extrapolation flag and cache) and every query year, two successive lookups of
the same year return the identical label — determinism and idempotence hold in
particular when the first call populated the extrapolation cache and the
second call is served from it or recomputed from the same pure inputs. -/
theorem claim_C9 : ∀ (st : YearClassifier) (y : Int),
    (lookupClass (lookupClass st y).2 y).1 = (lookupClass st y).1 := by
  intro st y
  cases hm : firstMatch y (resolveEnds st.currentYear st.config) with
  | some lbl =>
    simp [lookupClass, lookupCached, hm]
  | none =>
    cases hg : (st.extrapolate && decide (2 ≤ st.config.length)) with
    | false =>
      simp [lookupClass, lookupCached, hm, hg]
    | true =>
      cases hcf : cacheFind y st.cache with
      | some l =>
        simp [lookupClass, lookupCached, hm, hg, hcf]
      | none =>
        cases he : extrapolateBucket st.config y with
        | none =>
          simp [lookupClass, lookupCached, hm, hg, hcf, he]
        | some dw =>
          obtain ⟨d, w⟩ := dw
          cases hce : cacheFind y (⟨d.start, w, d.label⟩ :: st.cache) with
          | some l =>
            have hl : l = d.label :=
              cacheFind_cons y ⟨d.start, w, d.label⟩ st.cache l hce hcf
            subst hl
            simp [lookupClass, lookupCached, hm, hg, hcf, he, hce]
          | none =>
            simp [lookupClass, lookupCached, hm, hg, hcf, he, hce]

end Bucket

namespace ArtResizer

theorem countCh_append (a : Char) (l1 l2 : List Char) :
    countCh a (l1 ++ l2) = countCh a l1 + countCh a l2 := by
  simp [countCh, List.filter_append]

theorem countCh_cons (a c : Char) (cs : List Char) :
    countCh a (c :: cs) = (if c = a then 1 else 0) + countCh a cs := by
  by_cases hc : c = a
  · simp [countCh, List.filter_cons, hc]
    omega
  · simp [countCh, List.filter_cons, hc]

theorem quoteChar_one_le (c : Char) : 1 ≤ (quoteChar c).length := by
  unfold quoteChar
  split
  · simp
  · split <;> simp

theorem quotePlus_le_length : ∀ cs : List Char, cs.length ≤ (quotePlus cs).length
  | [] => by simp [quotePlus]
  | c :: cs => by
    have h1 := quoteChar_one_le c
    have h2 := quotePlus_le_length cs
    simp only [quotePlus, List.map_cons, List.flatten_cons, List.length_append,
      List.length_cons] at *
    omega

theorem hexDigit_ne_colon : ∀ n : Nat, n < 16 → ¬ hexDigit n = ':' := by decide

theorem quoteChar_colon (c : Char) : countCh ':' (quoteChar c) = 0 := by
  unfold quoteChar
  split
  · decide
  · split
    · rename_i hsafe
      have hc : ¬ c = ':' := by
        intro he
        subst he
        exact absurd hsafe (by decide)
      simp [countCh, hc]
    · have hm : c.toNat % 256 < 256 := Nat.mod_lt _ (by omega)
      have h1 : c.toNat % 256 / 16 < 16 := by omega
      have h2 : c.toNat % 256 % 16 < 16 := Nat.mod_lt _ (by omega)
      have hp : ¬ ('%' = ':') := by decide
      simp [countCh, hp, hexDigit_ne_colon _ h1, hexDigit_ne_colon _ h2]

theorem quotePlus_colon : ∀ cs : List Char, countCh ':' (quotePlus cs) = 0
  | [] => by simp [quotePlus, countCh]
  | c :: cs => by
    have h1 := quoteChar_colon c
    have h2 := quotePlus_colon cs
    simp only [quotePlus, List.map_cons, List.flatten_cons] at *
    rw [countCh_append, h1, h2]

theorem leadsWith_decomp : ∀ (p cs : List Char), leadsWith p cs = true →
    cs = p ++ cs.drop p.length
  | [], cs => by simp
  | a :: ps, [] => by simp [leadsWith]
  | a :: ps, c :: cs => by
    intro h
    simp only [leadsWith, Bool.and_eq_true, decide_eq_true_eq] at h
    obtain ⟨rfl, h2⟩ := h
    have := leadsWith_decomp ps cs h2
    simpa using this

theorem dropOccs_len_colon : ∀ (fuel : Nat) (cs : List Char),
    (dropOccs fuel "http://".toList cs).length + 7 * countCh ':' cs =
      cs.length + 7 * countCh ':' (dropOccs fuel "http://".toList cs)
  | 0, cs => by simp [dropOccs]
  | fuel + 1, [] => by simp [dropOccs]
  | fuel + 1, c :: cs => by
    by_cases hm : (leadsWith "http://".toList (c :: cs) && decide ("http://".toList ≠ [])) = true
    · have hd := leadsWith_decomp "http://".toList (c :: cs) (by
        simp only [Bool.and_eq_true] at hm
        exact hm.1)
      have hstep : dropOccs (fuel + 1) "http://".toList (c :: cs) =
          dropOccs fuel "http://".toList ((c :: cs).drop "http://".toList.length) := by
        rw [dropOccs]
        rw [if_pos hm]
      have ih := dropOccs_len_colon fuel ((c :: cs).drop "http://".toList.length)
      have hcount : countCh ':' (c :: cs) =
          1 + countCh ':' ((c :: cs).drop "http://".toList.length) := by
        conv_lhs => rw [hd]
        rw [countCh_append]
        rfl
      have hlen : (c :: cs).length = 7 + ((c :: cs).drop "http://".toList.length).length := by
        conv_lhs => rw [hd]
        rw [List.length_append]
        rfl
      rw [hstep, hcount, hlen]
      omega
    · have hstep : dropOccs (fuel + 1) "http://".toList (c :: cs) =
          c :: dropOccs fuel "http://".toList cs := by
        rw [dropOccs]
        rw [if_neg hm]
      have ih := dropOccs_len_colon fuel cs
      rw [hstep, countCh_cons, countCh_cons]
      by_cases hc : c = ':' <;> simp only [hc, if_true, if_false, List.length_cons] <;> omega

end ArtResizer

namespace ArtResizer

/-- The proxied URL is never the original URL: the result's single `:` forces
at most one `http://` deletion, so the quoted payload is too long for the
result to close the loop. -/
theorem resize_url_ne (url : String) (maxwidth : Nat) : ¬ resize_url url maxwidth = url := by
  intro h
  have hd : (PROXY_URL.toList ++ ['?'] ++ "url=".toList ++ quotePlus (stripHttp url) ++
      "&w=".toList ++ quotePlus (toString maxwidth).toList) = url.data := congrArg String.data h
  have hstrip : (stripHttp url).length + 7 * countCh ':' url.data =
      url.data.length + 7 * countCh ':' (stripHttp url) :=
    dropOccs_len_colon url.toList.length url.toList
  have hq : (stripHttp url).length ≤ (quotePlus (stripHttp url)).length :=
    quotePlus_le_length _
  have hlen : url.data.length = 32 + (quotePlus (stripHttp url)).length +
      (quotePlus (toString maxwidth).toList).length := by
    rw [← hd]
    simp only [List.length_append, List.length_cons, List.length_nil]
    have h1 : PROXY_URL.toList.length = 24 := by decide
    have h2 : ("url=".toList).length = 4 := by decide
    have h3 : ("&w=".toList).length = 3 := by decide
    omega
  have hcolon : countCh ':' url.data = 1 := by
    rw [← hd]
    rw [countCh_append, countCh_append, countCh_append, countCh_append, countCh_append]
    rw [quotePlus_colon, quotePlus_colon]
    have h1 : countCh ':' PROXY_URL.toList = 1 := by decide
    have h2 : countCh ':' ['?'] = 0 := by decide
    have h3 : countCh ':' "url=".toList = 0 := by decide
    have h4 : countCh ':' "&w=".toList = 0 := by decide
    omega
  omega

/-- C10: which of `ArtResizer`'s two public transformations is guaranteed to be
the identity is decided by whether the selected method is local (`method[0]` a
key of `BACKEND_FUNCS`, i.e. PIL or IMAGEMAGICK): a non-local (WEBPROXY)
method makes `resize` return `path_in` unchanged while `proxy_url` returns the
proxied URL, which always differs from the input URL; a local method makes
`proxy_url` return the URL unchanged while `resize` delegates to the selected
backend. -/
theorem claim_C10 : ∀ (backends : Nat → Nat → String → Option String → String)
    (method0 maxwidth : Nat) (path_in : String) (path_out : Option String) (url : String),
    (isLocal method0 = true ↔ (method0 = PIL ∨ method0 = IMAGEMAGICK)) ∧
    (isLocal method0 = false → resize backends method0 maxwidth path_in path_out = path_in) ∧
    (isLocal method0 = true → proxy_url method0 maxwidth url = url) ∧
    (isLocal method0 = false → proxy_url method0 maxwidth url = resize_url url maxwidth ∧
      ¬ proxy_url method0 maxwidth url = url) ∧
    (isLocal method0 = true →
      resize backends method0 maxwidth path_in path_out =
        backends method0 maxwidth path_in path_out) := by
  intro backends method0 maxwidth path_in path_out url
  refine ⟨?_, ?_, ?_, ?_, ?_⟩
  · simp only [isLocal, BACKEND_KEYS, PIL, IMAGEMAGICK, List.any_cons, List.any_nil,
      Bool.or_eq_true, Bool.or_false, decide_eq_true_eq]
    omega
  · intro h
    simp [resize, h]
  · intro h
    simp [proxy_url, h]
  · intro h
    refine ⟨by simp [proxy_url, h], ?_⟩
    have : proxy_url method0 maxwidth url = resize_url url maxwidth := by simp [proxy_url, h]
    rw [this]
    exact resize_url_ne url maxwidth
  · intro h
    simp [resize, h]

theorem claim_C10_witness :
    isLocal WEBPROXY = false ∧
    resize (fun _ _ p _ => p ++ ".tmp") WEBPROXY 100 "in.jpg" none = "in.jpg" ∧
    isLocal PIL = true ∧
    proxy_url PIL 100 "http://x/y.jpg" = "http://x/y.jpg" ∧
    ¬ proxy_url WEBPROXY 100 "http://x/y.jpg" = "http://x/y.jpg" := by
  refine ⟨by decide, ?_, by decide, ?_, ?_⟩
  · exact (claim_C10 (fun _ _ p _ => p ++ ".tmp") WEBPROXY 100 "in.jpg" none "u").2.1 (by decide)
  · exact (claim_C10 (fun _ _ p _ => p ++ ".tmp") PIL 100 "p" none
      "http://x/y.jpg").2.2.1 (by decide)
  · exact ((claim_C10 (fun _ _ p _ => p ++ ".tmp") WEBPROXY 100 "p" none
      "http://x/y.jpg").2.2.2.1 (by decide)).2

end ArtResizer
